import Mathlib

/-!
Verification of the solana-vanity-wallet repository (src/src/main.rs and
src/src/lib.rs) against its natural-language specification.

The development shallowly embeds the program:
* the two prefix-validator copies and the two difficulty-estimator copies
  (main.rs and lib.rs) as executable Lean functions over `String`;
* 64-bit unsigned arithmetic as `Nat` with explicit `% 2 ^ 64`;
* the mnemonic-mode key-derivation pipelines (main.rs worker vs
  lib.rs `derive_solana_seed`) over byte lists, with a concrete
  SHA-512 / HMAC-SHA512 / SLIP-10 implementation so the two pipelines can
  be evaluated and compared on concrete seeds;
* the parallel search (worker threads of main.rs lines 183-230) as a
  small-step interleaving semantics on a shared configuration
  (found flag, shared counter, mutex-protected result slot), one shared
  memory access per step.
-/

namespace VanityWallet

/-! ### Prefix validators

main.rs lines 82-92 and lib.rs lines 48-58 each define an
`is_valid_base58_prefix` over their own alphabet constant.  The two
constants are transcribed verbatim from the source: the main.rs string
contains the letter I (59 symbols), the lib.rs string omits it
(58 symbols). -/

/-- Alphabet constant of main.rs line 85 (includes the letter I). -/
def mainAlphabet : List Char :=
  "123456789ABCDEFGHIJKLMNPQRSTUVWXYZabcdefghijkmnopqrstuvwxyz".toList

/-- Alphabet constant of lib.rs line 51 (omits the letter I). -/
def libAlphabet : List Char :=
  "123456789ABCDEFGHJKLMNPQRSTUVWXYZabcdefghijkmnopqrstuvwxyz".toList

/-- main.rs `is_valid_base58_prefix`: non-empty and every character in
the main.rs alphabet constant. -/
def is_valid_base58_prefix_main (p : String) : Bool :=
  !p.isEmpty && p.toList.all (fun c => mainAlphabet.contains c)

/-- lib.rs `is_valid_base58_prefix`: non-empty and every character in
the lib.rs alphabet constant. -/
def is_valid_base58_prefix_lib (p : String) : Bool :=
  !p.isEmpty && p.toList.all (fun c => libAlphabet.contains c)

/-- Modelled from the spec's description of the 58-symbol alphabet
("digits 1-9, uppercase letters excluding O and I, lowercase letters
excluding l"), expressed over code points: 49-57 are 1-9, 65-90 are A-Z
(79 is O, 73 is I), 97-122 are a-z (108 is l).  Used to compare the two
source validator copies against the spec's predicate. -/
def isStd58Nat (n : Nat) : Bool :=
  (49 ≤ n && n ≤ 57) ||
  (65 ≤ n && n ≤ 90 && n ≠ 79 && n ≠ 73) ||
  (97 ≤ n && n ≤ 122 && n ≠ 108)

/-- The spec's 58-symbol membership test on characters. -/
def isStd58Char (c : Char) : Bool := isStd58Nat c.toNat

/-- The non-alphabet symbols the spec names explicitly. -/
def badChars : List Char := ['0', 'O', 'l', ' ', '_', '+', '/']

/-! ### Difficulty estimator

main.rs lines 28-34 and lib.rs lines 60-66: `58u64.pow(len) / 2`.
Rust `u64::pow` is a product of `u64` multiplications; with release-mode
(wrapping) semantics each multiplication is taken modulo `2 ^ 64`, which
we embed as a fold of wrapping multiplications.  `prefix.len()` in Rust
is the byte length of the string, embedded as `String.utf8ByteSize`. -/

/-- Wrapping `u64` power: fold of `u64` (mod `2 ^ 64`) multiplications,
as performed by `u64::pow` under release-mode overflow semantics. -/
def u64pow (b n : Nat) : Nat :=
  (List.range n).foldl (fun acc _ => acc * b % 2 ^ 64) 1

/-- main.rs `calculate_expected_iterations`: `58u64.pow(len) / 2`. -/
def calculate_expected_iterations_main (p : String) : Nat :=
  u64pow 58 p.utf8ByteSize / 2

/-- lib.rs `calculate_expected_iterations`: `58u64.pow(len) / 2`. -/
def calculate_expected_iterations_lib (p : String) : Nat :=
  u64pow 58 p.utf8ByteSize / 2

/-! ### Luck factor and console label

main.rs lines 250-258 (console) and 262-274 (JSON payload): the ratio
`expected_iterations as f64 / final_iterations as f64` — modelled, as the
claim words it, as the exact real-valued (rational) ratio — and the label
`if final_iterations < expected_iterations { "better" } else { "worse" }`
(an exact `u64` comparison in the source, no floating point involved). -/

/-- The luck-factor ratio expected/actual as an exact rational. -/
def luckFactor (expected actual : Nat) : ℚ :=
  (expected : ℚ) / (actual : ℚ)

/-- The console label of main.rs lines 253-257 and 328. -/
def luckLabel (expected actual : Nat) : String :=
  if actual < expected then "better" else "worse"

/-! ### Output-format branch

main.rs lines 283-336: `if args.format == "json" { ... } else { ... }`.
The `--format` option is a plain `String` clap argument (lines 20-22),
so any value parses; only the exact string "json" selects the JSON
branch.  The saved file is named from the first 10 bytes of the address
(line 281; base58 output is ASCII, so bytes coincide with characters). -/

inductive OutputKind where
  | json
  | text
deriving DecidableEq

/-- The branch taken by main.rs line 283. -/
def outputKind (format : String) : OutputKind :=
  if format == "json" then .json else .text

/-- main.rs line 281: `&pubkey[..10.min(pubkey.len())]`. -/
def walletPrefix10 (pubkey : String) : String :=
  pubkey.take (min 10 pubkey.length)

/-- File name chosen at main.rs lines 288 / 331. -/
def outputFileName (format pubkey : String) : String :=
  walletPrefix10 pubkey ++
    (match outputKind format with
     | .json => "_output.json"
     | .text => "_output.txt")

/-! ### SHA-512, HMAC-SHA512 and SLIP-10 key derivation

lib.rs lines 7-17 (`derive_solana_seed`) derive a 32-byte signing seed
from a 64-byte BIP39 seed with the SLIP-10 Ed25519 scheme along the path
44h / 501h / 0h / 0h.  The worker of main.rs line 200 instead uses the
first 32 bytes of the 64-byte seed directly.  To compare the two on
concrete inputs we implement SHA-512 concretely.  Bytes are `Nat` values
below 256; 64-bit words are `Nat` values below `2 ^ 64`.

The SHA-512 round constants are, by definition, the first 64 bits of the
fractional parts of the cube roots of the first 80 primes, and the
initial hash state the first 64 bits of the fractional parts of the
square roots of the first 8 primes; we compute them that way (integer
cube root by bisection) instead of transcribing 88 magic numbers. -/

def primes80 : List Nat :=
  [2, 3, 5, 7, 11, 13, 17, 19, 23, 29, 31, 37, 41, 43, 47, 53, 59, 61,
   67, 71, 73, 79, 83, 89, 97, 101, 103, 107, 109, 113, 127, 131, 137,
   139, 149, 151, 157, 163, 167, 173, 179, 181, 191, 193, 197, 199, 211,
   223, 227, 229, 233, 239, 241, 251, 257, 263, 269, 271, 277, 281, 283,
   293, 307, 311, 313, 317, 331, 337, 347, 349, 353, 359, 367, 373, 379,
   383, 389, 397, 401, 409]

/-- Bisection for the integer cube root: maintains lo ^ 3 ≤ n < hi ^ 3. -/
def icbrtGo (n : Nat) : Nat → Nat → Nat → Nat
  | 0, lo, _ => lo
  | fuel + 1, lo, hi =>
    let mid := (lo + hi) / 2
    if mid = lo then lo
    else if mid ^ 3 ≤ n then icbrtGo n fuel mid hi
    else icbrtGo n fuel lo mid

def icbrt (n : Nat) : Nat := icbrtGo n 100 0 (2 ^ 80)

/-- Bisection for the integer square root: maintains lo ^ 2 ≤ n < hi ^ 2. -/
def isqrtGo (n : Nat) : Nat → Nat → Nat → Nat
  | 0, lo, _ => lo
  | fuel + 1, lo, hi =>
    let mid := (lo + hi) / 2
    if mid = lo then lo
    else if mid ^ 2 ≤ n then isqrtGo n fuel mid hi
    else isqrtGo n fuel lo mid

def isqrt (n : Nat) : Nat := isqrtGo n 100 0 (2 ^ 80)

/-- SHA-512 round constants K0..K79. -/
def shaK : List Nat := primes80.map (fun p => icbrt (p * 2 ^ 192) % 2 ^ 64)

/-- SHA-512 initial state H0..H7. -/
def shaH0 : List Nat :=
  (primes80.take 8).map (fun p => isqrt (p * 2 ^ 128) % 2 ^ 64)

def wadd (a b : Nat) : Nat := (a + b) % 2 ^ 64

def rotr (n x : Nat) : Nat :=
  Nat.lor (Nat.shiftRight x n) (Nat.shiftLeft x (64 - n) % 2 ^ 64)

def bigSigma0 (x : Nat) : Nat := Nat.xor (rotr 28 x) (Nat.xor (rotr 34 x) (rotr 39 x))

def bigSigma1 (x : Nat) : Nat := Nat.xor (rotr 14 x) (Nat.xor (rotr 18 x) (rotr 41 x))

def smallSigma0 (x : Nat) : Nat :=
  Nat.xor (rotr 1 x) (Nat.xor (rotr 8 x) (Nat.shiftRight x 7))

def smallSigma1 (x : Nat) : Nat :=
  Nat.xor (rotr 19 x) (Nat.xor (rotr 61 x) (Nat.shiftRight x 6))

def chF (e f g : Nat) : Nat :=
  Nat.xor (Nat.land e f) (Nat.land (Nat.xor e (2 ^ 64 - 1)) g)

def majF (a b c : Nat) : Nat :=
  Nat.xor (Nat.land a b) (Nat.xor (Nat.land a c) (Nat.land b c))

/-- Big-endian bytes to a word. -/
def bytesToWord (l : List Nat) : Nat := l.foldl (fun a b => a * 256 + b) 0

/-- A 64-bit word to 8 big-endian bytes. -/
def wordToBytes (n : Nat) : List Nat :=
  (List.range 8).map (fun i => Nat.shiftRight n (8 * (7 - i)) % 256)

/-- The 16-byte big-endian bit-length field of SHA-512 padding. -/
def be16len (nbits : Nat) : List Nat :=
  (List.range 16).map (fun i => Nat.shiftRight nbits (8 * (15 - i)) % 256)

/-- SHA-512 padding: 0x80, zeros, 128-bit message bit length. -/
def padMsg (m : List Nat) : List Nat :=
  let k := (128 - (m.length + 17) % 128) % 128
  m ++ 0x80 :: (List.replicate k 0 ++ be16len (8 * m.length))

def chunksGo : Nat → List Nat → List (List Nat)
  | 0, _ => []
  | n + 1, l => l.take 128 :: chunksGo n (l.drop 128)

def chunks128 (l : List Nat) : List (List Nat) := chunksGo (l.length / 128) l

def blockWords (blk : List Nat) : List Nat :=
  (List.range 16).map (fun i => bytesToWord ((blk.drop (8 * i)).take 8))

/-- Extend the 16 block words to the 80-entry message schedule. -/
def msgSchedule (ws : List Nat) : Array Nat :=
  (List.range 64).foldl
    (fun w _ =>
      let t := w.size
      w.push (wadd (smallSigma1 (w.getD (t - 2) 0))
        (wadd (w.getD (t - 7) 0)
          (wadd (smallSigma0 (w.getD (t - 15) 0)) (w.getD (t - 16) 0)))))
    ws.toArray

/-- One SHA-512 round on the 8-word working state. -/
def roundStep (k w : Array Nat) (st : List Nat) (t : Nat) : List Nat :=
  let a := st.getD 0 0
  let b := st.getD 1 0
  let c := st.getD 2 0
  let d := st.getD 3 0
  let e := st.getD 4 0
  let f := st.getD 5 0
  let g := st.getD 6 0
  let h := st.getD 7 0
  let t1 := wadd h (wadd (bigSigma1 e) (wadd (chF e f g) (wadd (k.getD t 0) (w.getD t 0))))
  let t2 := wadd (bigSigma0 a) (majF a b c)
  [wadd t1 t2, a, b, c, wadd d t1, e, f, g]

/-- SHA-512 compression of one 128-byte block. -/
def compress (st blk : List Nat) : List Nat :=
  let w := msgSchedule (blockWords blk)
  let fin := (List.range 80).foldl (roundStep shaK.toArray w) st
  List.zipWith wadd st fin

/-- SHA-512 of a byte list, as a 64-byte list. -/
def sha512 (m : List Nat) : List Nat :=
  ((chunks128 (padMsg m)).foldl compress shaH0).foldr
    (fun w acc => wordToBytes w ++ acc) []

/-- HMAC-SHA512 for keys of at most 128 bytes (the only case the
program uses: the 12-byte SLIP-10 master key string and 32-byte chain
codes). -/
def hmacSha512 (key data : List Nat) : List Nat :=
  let k0 := key ++ List.replicate (128 - key.length) 0
  sha512 (k0.map (fun b => Nat.xor b 0x5c) ++
    sha512 (k0.map (fun b => Nat.xor b 0x36) ++ data))

/-- The SLIP-10 Ed25519 master-key HMAC key, the ASCII bytes of the
string used by the slip10 crate. -/
def ed25519SeedKey : List Nat := "ed25519 seed".toList.map Char.toNat

/-- 4-byte big-endian serialization of a child index. -/
def ser32 (i : Nat) : List Nat :=
  (List.range 4).map (fun j => Nat.shiftRight i (8 * (3 - j)) % 256)

/-- One hardened SLIP-10 Ed25519 child-key step on (key, chain code). -/
def slipStep (kc : List Nat × List Nat) (i : Nat) : List Nat × List Nat :=
  let ir := hmacSha512 kc.2 (0 :: (kc.1 ++ ser32 i))
  (ir.take 32, ir.drop 32)

/-- The hardened path of lib.rs line 10: indices 44, 501, 0, 0, each
offset by 2 ^ 31. -/
def solanaPath : List Nat :=
  [0x8000002C, 0x800001F5, 0x80000000, 0x80000000]

/-- lib.rs `derive_solana_seed`: SLIP-10 Ed25519 derivation of the
32-byte signing key from the 64-byte seed along the fixed path. -/
def derive_solana_seed (seed : List Nat) : List Nat :=
  let master := hmacSha512 ed25519SeedKey seed
  (solanaPath.foldl slipStep (master.take 32, master.drop 32)).1

/-- main.rs line 200: the worker takes `&seed[..32]`, the first 32 bytes
of the 64-byte BIP39 seed, with no path derivation. -/
def workerSigningSeed (seed : List Nat) : List Nat := seed.take 32

/-- An Ed25519 keypair as constructed by `Keypair::from_seed` is
determined by (and physically contains) its 32-byte seed, so we model it
by that seed. -/
structure KeypairModel where
  seed32 : List Nat
deriving DecidableEq

def keypairFromSeed (s : List Nat) : KeypairModel := ⟨s⟩

/-- The candidate keypair the main.rs worker builds from a 64-byte
BIP39 seed (main.rs lines 198-200). -/
def workerKeypairOfSeed (seed : List Nat) : KeypairModel :=
  keypairFromSeed (workerSigningSeed seed)

/-- The keypair lib.rs `generate_keypair(true)` builds from the same
64-byte BIP39 seed (lib.rs lines 33-35). -/
def libKeypairOfSeed (seed : List Nat) : KeypairModel :=
  keypairFromSeed (derive_solana_seed seed)

def zeroSeed64 : List Nat := List.replicate 64 0

/-! Staging of `derive_solana_seed zeroSeed64`, one SLIP-10 step per
definition, so each stage can be evaluated to a byte-list literal by a
separate small lemma. -/

/-- `HMAC-SHA512("ed25519 seed", zeroSeed64)`, the SLIP-10 master data. -/
def slipM0 : List Nat := hmacSha512 ed25519SeedKey zeroSeed64

/-- SLIP-10 master (key, chain code) for the all-zero 64-byte seed. -/
def slipKC0 : List Nat × List Nat := (slipM0.take 32, slipM0.drop 32)

def slipKC1 : List Nat × List Nat := slipStep slipKC0 0x8000002C

def slipKC2 : List Nat × List Nat := slipStep slipKC1 0x800001F5

def slipKC3 : List Nat × List Nat := slipStep slipKC2 0x80000000

def slipKC4 : List Nat × List Nat := slipStep slipKC3 0x80000000

/-! ### The parallel search as a small-step interleaving semantics

main.rs lines 111-112 create the shared `found : AtomicBool` and
`total_iterations : AtomicU64`; line 178 the mutex-protected
`result_data : Option<(mnemonic, pubkey, secret, bytes, iters, time)>`
slot; lines 183-230 run one worker loop per CPU.  We model each worker
as a control state plus its local iteration count, and the whole search
as a configuration stepped by choosing which worker performs its next
shared-memory access (one shared access per step, so every interleaving
of the source's shared accesses is a schedule here).

Candidate generation (entropy, mnemonic, keypair, base58 encoding) is
local; a worker's stream of candidates is modelled by the list `cands`
of the addresses its successive draws encode, read at position `k`.
The match test `pubkey.starts_with(&args.prefix)` is the character
prefix test (base58 output is ASCII, so Rust's byte-prefix test
coincides with it).  The `u64` counters are modelled as `Nat`: wraparound
of a 64-bit counter is unreachable in any physical run.  The statistics
thread only reads `found` and the counter, so it is not modelled. -/

/-- Rust `str::starts_with` on our modelled strings. -/
def strStarts (s pre : String) : Bool :=
  List.isPrefixOf pre.toList s.toList

/-- What the winning worker stores in the result slot (main.rs lines
219-226), restricted to the fields the claims are about: the matching
address and the counter value it read as `final_iterations`.  The
mnemonic and secret key are functions of the same candidate, and the
elapsed wall-clock time is not modelled. -/
structure SlotData where
  pubkey : String
  iters : Nat
deriving DecidableEq

/-- Worker control points, one per shared-memory access of the loop
body (main.rs lines 190-229):
`look` = the `while !found.load()` check (line 190);
`work` = generate one candidate, bump the local count, and flush a
full batch of 1000 into the shared counter if due (lines 191-208),
then test the candidate (line 210);
`setFlag` = `found.store(true)` (line 211);
`flushRem` = `fetch_add(local_iterations % 1000)` (line 212);
`readCnt` = `final_iterations = counter.load()` (line 216);
`writeSlot` = the mutex-guarded slot assignment (line 219);
`doneWin` after `break` (line 227); `doneLose` after observing
`found = true` at the loop head. -/
inductive WPhase where
  | look
  | work
  | setFlag
  | flushRem
  | readCnt
  | writeSlot
  | doneWin
  | doneLose
deriving DecidableEq

/-- A worker: control point, local iteration count `k`
(`local_iterations`), the `final_iterations` value read at `readCnt`,
and the fixed stream of addresses its draws produce. -/
structure WState where
  pc : WPhase
  k : Nat
  finalRead : Nat
  cands : List String
deriving DecidableEq

/-- The shared search state plus all workers. -/
structure Config where
  found : Bool
  counter : Nat
  slot : Option SlotData
  ws : List WState
deriving DecidableEq

/-- The candidate a worker currently holds (its draw number `k - 1`). -/
def candAt (w : WState) : String := w.cands.getD (w.k - 1) ""

/-- One step of worker `i` (no-op on an out-of-range index or a
finished worker). -/
def stepW (pfx : String) (c : Config) (i : Nat) : Config :=
  match c.ws[i]? with
  | none => c
  | some w =>
    match w.pc with
    | .look =>
      if c.found then { c with ws := c.ws.set i { w with pc := .doneLose } }
      else { c with ws := c.ws.set i { w with pc := .work } }
    | .work =>
      let k1 := w.k + 1
      let cand := w.cands.getD w.k ""
      { c with
        counter := if k1 % 1000 == 0 then c.counter + 1000 else c.counter,
        ws := c.ws.set i
          { w with pc := if strStarts cand pfx then .setFlag else .look, k := k1 } }
    | .setFlag =>
      { c with found := true, ws := c.ws.set i { w with pc := .flushRem } }
    | .flushRem =>
      { c with
        counter := c.counter + w.k % 1000,
        ws := c.ws.set i { w with pc := .readCnt } }
    | .readCnt =>
      { c with ws := c.ws.set i { w with pc := .writeSlot, finalRead := c.counter } }
    | .writeSlot =>
      { c with
        slot := some ⟨candAt w, w.finalRead⟩,
        ws := c.ws.set i { w with pc := .doneWin } }
    | .doneWin => c
    | .doneLose => c

/-- The initial configuration: flag clear, counter zero, slot empty,
every worker at the loop head with a zero local count. -/
def initConfig (cs : List (List String)) : Config :=
  ⟨false, 0, none, cs.map (fun l => ⟨.look, 0, 0, l⟩)⟩

/-- Run a schedule (a list of worker choices). -/
def exec (pfx : String) (c : Config) (sched : List Nat) : Config :=
  sched.foldl (stepW pfx) c

/-- Reachability under arbitrary interleaving. -/
inductive Reach (pfx : String) (c0 : Config) : Config → Prop where
  | refl : Reach pfx c0 c0
  | tail {c : Config} (i : Nat) : Reach pfx c0 c → Reach pfx c0 (stepW pfx c i)

/-- How much of a worker's local count has been flushed into the shared
counter, as a function of its control point: full batches of 1000
before the remainder flush, everything from `readCnt` on. -/
def flushedOf (w : WState) : Nat :=
  match w.pc with
  | .look | .work | .setFlag | .flushRem | .doneLose => 1000 * (w.k / 1000)
  | .readCnt | .writeSlot | .doneWin => w.k

/-- The true total number of candidates generated so far. -/
def totalGens (c : Config) : Nat := (c.ws.map (fun w => w.k)).sum

/-- Phases strictly after the worker's `found.store(true)`. -/
def phaseAfterFlag (p : WPhase) : Bool :=
  match p with
  | .flushRem | .readCnt | .writeSlot | .doneWin => true
  | _ => false

/-- Phases a worker can only occupy once the flag is set. -/
def phaseFlagTrue (p : WPhase) : Bool :=
  phaseAfterFlag p || p == WPhase.doneLose

/-- Phases a worker can only occupy while holding a matching candidate. -/
def phaseMatched (p : WPhase) : Bool :=
  match p with
  | .setFlag | .flushRem | .readCnt | .writeSlot | .doneWin => true
  | _ => false

/-- The inductive invariant of the search. -/
structure Inv (pfx : String) (c : Config) : Prop where
  counterEq : c.counter = (c.ws.map flushedOf).sum
  flagOfPhase : ∀ (i : Nat) (w : WState), c.ws[i]? = some w →
    phaseFlagTrue w.pc = true → c.found = true
  winnerExists : c.found = true →
    ∃ (i : Nat) (w : WState), c.ws[i]? = some w ∧ phaseAfterFlag w.pc = true
  winnerSlot : ∀ (i : Nat) (w : WState), c.ws[i]? = some w →
    w.pc = WPhase.doneWin → c.slot.isSome = true
  matchedCand : ∀ (i : Nat) (w : WState), c.ws[i]? = some w →
    phaseMatched w.pc = true → strStarts (candAt w) pfx = true
  slotMatch : ∀ d : SlotData, c.slot = some d → strStarts d.pubkey pfx = true
  slotFound : c.slot.isSome = true → c.found = true

/-! ### The whole program run (main.rs `main`)

main.rs lines 94-109: the prefix is validated (with main.rs's own
validator copy) before any search state exists; on failure the process
prints a diagnostic and exits with code 1 having generated nothing; on
success the search runs and, when it terminates, `main` returns
normally, i.e. with exit code 0.  File persistence is an external
collaborator and is not modelled. -/

structure ProgResult where
  exitCode : Nat
  generated : Nat
  result : Option SlotData
deriving DecidableEq

/-- The observable outcome of a (terminating) program run with the
given worker candidate streams and schedule. -/
def runProgram (pfx : String) (cs : List (List String)) (sched : List Nat) :
    ProgResult :=
  if is_valid_base58_prefix_main pfx then
    let c := exec pfx (initConfig cs) sched
    ⟨0, totalGens c, c.slot⟩
  else ⟨1, 0, none⟩

/-! Concrete runs used to exhibit the result-slot overwrite (claim about
the compare-and-set that main.rs does not perform: line 211 is a plain
`store`) and a fully terminated run. -/

/-- Two workers whose first draws both match the target "1". -/
def cexInit : Config := initConfig [["1A"], ["1B"]]

/-- Worker 0 and worker 1 both pass the loop check and both find a
match before either stores the flag; worker 0 then completes its match
branch and writes the slot. -/
def cexSchedA : List Nat := [0, 1, 0, 1, 0, 0, 0, 0]

/-- Worker 1 then completes its own match branch: it stores the flag
again and overwrites the slot. -/
def cexSchedB : List Nat := [1, 1, 1, 1]

/-- A single worker running its match branch to completion. -/
def soloInit : Config := initConfig [["1A"]]

def soloSched : List Nat := [0, 0, 0, 0, 0, 0]

/-! ## Helper lemmas -/

theorem mem_of_idx {α : Type} {l : List α} {i : Nat} {a : α}
    (h : l[i]? = some a) : a ∈ l := by
  obtain ⟨hlt, rfl⟩ := List.getElem?_eq_some.mp h
  exact List.getElem_mem hlt

theorem char_eq_of_toNat {a b : Char} (h : a.toNat = b.toNat) : a = b :=
  Char.ext (UInt32.ext h)

theorem char_beq_toNat (a b : Char) : (a == b) = (a.toNat == b.toNat) := by
  by_cases h : a = b
  · subst h
    simp
  · have h2 : a.toNat ≠ b.toNat := fun he => h (char_eq_of_toNat he)
    simp [h, h2]

theorem contains_map_toNat (l : List Char) (c : Char) :
    l.contains c = (l.map Char.toNat).contains c.toNat := by
  induction l with
  | nil => rfl
  | cons a t ih =>
    simp only [List.map_cons, List.contains_cons, ih, char_beq_toNat]

theorem natContains_big_false {l : List Nat} (hb : ∀ m ∈ l, m < 128)
    {n : Nat} (hn : 128 ≤ n) : l.contains n = false := by
  rw [Bool.eq_false_iff]
  intro hc
  have hm : n ∈ l := List.elem_iff.mp hc
  exact absurd (hb n hm) (by omega)

theorem libNat_contains (n : Nat) :
    (libAlphabet.map Char.toNat).contains n = isStd58Nat n := by
  by_cases h : n < 128
  · have henum : ∀ m < 128,
        (libAlphabet.map Char.toNat).contains m = isStd58Nat m := by decide
    exact henum n h
  · have hb : ∀ m ∈ libAlphabet.map Char.toNat, m < 128 := by decide
    rw [natContains_big_false hb (by omega)]
    have hf : isStd58Nat n = false := by
      simp only [isStd58Nat, Bool.or_eq_false_iff, Bool.and_eq_false_iff,
        decide_eq_false_iff_not, not_le, ne_eq, Decidable.not_not]
      omega
    exact hf.symm

theorem mainNat_contains (n : Nat) :
    (mainAlphabet.map Char.toNat).contains n = (isStd58Nat n || n == 73) := by
  by_cases h : n < 128
  · have henum : ∀ m < 128,
        (mainAlphabet.map Char.toNat).contains m = (isStd58Nat m || m == 73) := by
      decide
    exact henum n h
  · have hb : ∀ m ∈ mainAlphabet.map Char.toNat, m < 128 := by decide
    rw [natContains_big_false hb (by omega)]
    have hf : isStd58Nat n = false := by
      simp only [isStd58Nat, Bool.or_eq_false_iff, Bool.and_eq_false_iff,
        decide_eq_false_iff_not, not_le, ne_eq, Decidable.not_not]
      omega
    have hI : (n == 73) = false := by
      simp only [beq_eq_false_iff_ne, ne_eq]
      omega
    rw [hf, hI]
    rfl

theorem lib_contains_char (c : Char) :
    libAlphabet.contains c = isStd58Char c := by
  rw [contains_map_toNat, libNat_contains]
  rfl

theorem main_contains_char (c : Char) :
    mainAlphabet.contains c = (isStd58Char c || c == 'I') := by
  rw [contains_map_toNat, mainNat_contains, char_beq_toNat]
  rfl

theorem lib_validator_spec (p : String) :
    is_valid_base58_prefix_lib p = (!p.isEmpty && p.toList.all isStd58Char) := by
  unfold is_valid_base58_prefix_lib
  have he : (fun c => libAlphabet.contains c) = isStd58Char :=
    funext lib_contains_char
  rw [he]

theorem main_validator_spec (p : String) :
    is_valid_base58_prefix_main p =
      (!p.isEmpty && p.toList.all (fun c => isStd58Char c || c == 'I')) := by
  unfold is_valid_base58_prefix_main
  have he : (fun c => mainAlphabet.contains c) =
      (fun c => isStd58Char c || c == 'I') :=
    funext main_contains_char
  rw [he]

theorem all_congr_mem {α : Type} (l : List α) (f g : α → Bool)
    (h : ∀ x ∈ l, f x = g x) : l.all f = l.all g := by
  induction l with
  | nil => rfl
  | cons a t ih =>
    have ha : f a = g a := h a (List.mem_cons_self a t)
    have ht : t.all f = t.all g :=
      ih (fun x hx => h x (List.mem_cons_of_mem a hx))
    simp only [List.all_cons, ha, ht]

/-! ## C2: the two prefix-validator copies -/

/-- C2, counterexample: the claim that both validator copies compute the
same 58-symbol predicate (and in particular both reject every string
containing the letter I) is false on the code: on the one-character
string "I", the main.rs copy accepts while the lib.rs copy rejects. -/
theorem validator_copies_diverge_at_I :
    is_valid_base58_prefix_main "I" = true ∧
    is_valid_base58_prefix_lib "I" = false := by decide

/-- C2 (amended): the lib.rs validator computes exactly the spec's
58-symbol predicate (non-empty and every character among digits 1-9,
uppercase minus O and I, lowercase minus l); the main.rs validator
computes the corresponding predicate over the 59-symbol alphabet that
additionally contains I; the two copies agree on every string not
containing I; and for the empty string and any string containing
0, O, l, space, underscore, plus, slash, or a control character, both
copies return false. -/
theorem validator_copies_characterized (p : String) :
    (is_valid_base58_prefix_lib p = (!p.isEmpty && p.toList.all isStd58Char)) ∧
    (is_valid_base58_prefix_main p =
      (!p.isEmpty && p.toList.all (fun c => isStd58Char c || c == 'I'))) ∧
    ('I' ∉ p.toList →
      is_valid_base58_prefix_main p = is_valid_base58_prefix_lib p) ∧
    ((∃ c ∈ p.toList, c ∈ badChars ∨ c.toNat < 32) →
      is_valid_base58_prefix_main p = false ∧
      is_valid_base58_prefix_lib p = false) := by
  refine ⟨lib_validator_spec p, main_validator_spec p, ?_, ?_⟩
  · intro hni
    rw [lib_validator_spec, main_validator_spec]
    congr 1
    apply all_congr_mem
    intro x hx
    have hxne : x ≠ 'I' := fun he => hni (he ▸ hx)
    have hb : (x == 'I') = false := by
      rw [char_beq_toNat]
      simp only [beq_eq_false_iff_ne, ne_eq]
      intro he
      exact hxne (char_eq_of_toNat he)
    rw [hb, Bool.or_false]
  · rintro ⟨c, hc, hbad⟩
    have hcb : isStd58Char c = false ∧ (c == 'I') = false := by
      rcases hbad with hb | hctl
      · have hall : ∀ x ∈ badChars,
            isStd58Char x = false ∧ (x == 'I') = false := by decide
        exact hall c hb
      · constructor
        · simp only [isStd58Char, isStd58Nat, Bool.or_eq_false_iff,
            Bool.and_eq_false_iff, decide_eq_false_iff_not, not_le, ne_eq,
            Decidable.not_not]
          omega
        · rw [char_beq_toNat]
          simp only [beq_eq_false_iff_ne, ne_eq]
          intro he
          rw [he] at hctl
          exact absurd hctl (by decide)
    have hliball : p.toList.all isStd58Char = false :=
      List.all_eq_false.mpr ⟨c, hc, by simp [hcb.1]⟩
    have hmainall : p.toList.all (fun x => isStd58Char x || x == 'I') = false :=
      List.all_eq_false.mpr ⟨c, hc, by simp [hcb.1, hcb.2]⟩
    rw [lib_validator_spec, main_validator_spec, hliball, hmainall]
    simp

/-- C2 witness: agreement away from I, and rejection of an underscore
string by both copies, at concrete inputs. -/
theorem validator_copies_characterized_witness :
    is_valid_base58_prefix_main "Sol" = is_valid_base58_prefix_lib "Sol" ∧
    is_valid_base58_prefix_main "A_B" = false ∧
    is_valid_base58_prefix_lib "A_B" = false := by
  refine ⟨(validator_copies_characterized "Sol").2.2.1 (by decide), ?_, ?_⟩
  · exact ((validator_copies_characterized "A_B").2.2.2
      ⟨'_', by decide, Or.inl (by decide)⟩).1
  · exact ((validator_copies_characterized "A_B").2.2.2
      ⟨'_', by decide, Or.inl (by decide)⟩).2

/-! ## C4, C5: the difficulty estimator -/

theorem u64pow_eq (b n : Nat) : u64pow b n = b ^ n % 2 ^ 64 := by
  induction n with
  | zero => rfl
  | succ n ih =>
    unfold u64pow
    rw [List.range_succ, List.foldl_append]
    show (u64pow b n) * b % 2 ^ 64 = b ^ (n + 1) % 2 ^ 64
    rw [ih, Nat.mod_mul_mod, ← pow_succ]

/-- C4 (confirmed): both copies of `calculate_expected_iterations`
compute the same function, namely `58 ^ len / 2` in wrapping 64-bit
unsigned arithmetic (`len` the byte length of the prefix); for every
length up to 10 this is exactly `58 ^ len / 2`, and the concrete values
at lengths 1, 2, 3 are 29, 1682, 97556. -/
theorem expected_iterations_correct :
    (∀ p : String,
      calculate_expected_iterations_main p = calculate_expected_iterations_lib p) ∧
    (∀ p : String,
      calculate_expected_iterations_main p = 58 ^ p.utf8ByteSize % 2 ^ 64 / 2) ∧
    (∀ p : String, p.utf8ByteSize ≤ 10 →
      calculate_expected_iterations_main p = 58 ^ p.utf8ByteSize / 2) ∧
    calculate_expected_iterations_main "A" = 29 ∧
    calculate_expected_iterations_main "AB" = 1682 ∧
    calculate_expected_iterations_main "ABC" = 97556 := by
  have hw : ∀ p : String,
      calculate_expected_iterations_main p = 58 ^ p.utf8ByteSize % 2 ^ 64 / 2 :=
    fun p => congrArg (· / 2) (u64pow_eq 58 p.utf8ByteSize)
  refine ⟨fun p => rfl, hw, fun p h => ?_, by decide, by decide, by decide⟩
  have hlt : 58 ^ p.utf8ByteSize < 2 ^ 64 :=
    lt_of_le_of_lt (Nat.pow_le_pow_right (by omega) h)
      (by decide : 58 ^ 10 < 2 ^ 64)
  rw [hw p, Nat.mod_eq_of_lt hlt]

/-- C4 witness: the exact (unwrapped) value at the concrete length-3
input. -/
theorem expected_iterations_correct_witness :
    calculate_expected_iterations_main "ABC" =
      58 ^ ("ABC" : String).utf8ByteSize / 2 :=
  expected_iterations_correct.2.2.1 "ABC" (by decide)

/-- C5, counterexample: at the length-11 prefix "11111111111" the
function does not flag anything: it returns the value wrapped modulo
`2 ^ 64`, which differs from the true `58 ^ 11 / 2`. -/
theorem overflow_silently_wrapped :
    calculate_expected_iterations_main "11111111111" ≠ 58 ^ 11 / 2 ∧
    calculate_expected_iterations_main "11111111111" = 58 ^ 11 % 2 ^ 64 / 2 := by
  constructor
  · decide
  · decide

/-- C5 (amended): for every prefix of byte length 11 or more,
`calculate_expected_iterations` silently returns the wrapped value
`(58 ^ len mod 2 ^ 64) / 2` — its result type carries no error signal —
and that value is strictly below the true `58 ^ len / 2`.  (This is the
release-build behaviour of `u64::pow`; a debug build would abort with an
arithmetic-overflow panic instead, which is not an error report
either.) -/
theorem overflow_wraps_beyond_ten (p : String) (h : 11 ≤ p.utf8ByteSize) :
    calculate_expected_iterations_main p = 58 ^ p.utf8ByteSize % 2 ^ 64 / 2 ∧
    calculate_expected_iterations_main p < 58 ^ p.utf8ByteSize / 2 := by
  have he : calculate_expected_iterations_main p =
      58 ^ p.utf8ByteSize % 2 ^ 64 / 2 :=
    congrArg (· / 2) (u64pow_eq 58 p.utf8ByteSize)
  refine ⟨he, ?_⟩
  rw [he]
  have hmod : 58 ^ p.utf8ByteSize % 2 ^ 64 < 2 ^ 64 :=
    Nat.mod_lt _ (by decide)
  have h2 : (2 : Nat) ^ 63 ≤ 58 ^ 11 / 2 := by decide
  have h3 : 58 ^ 11 / 2 ≤ 58 ^ p.utf8ByteSize / 2 :=
    Nat.div_le_div_right (Nat.pow_le_pow_right (by omega) h)
  have e64 : (2 : Nat) ^ 64 = 18446744073709551616 := by decide
  have e63 : (2 : Nat) ^ 63 = 9223372036854775808 := by decide
  rw [e64] at hmod
  rw [e63] at h2
  omega

/-- C5 witness: the wrapped value and the strict undershoot at a
concrete length-11 input. -/
theorem overflow_wraps_beyond_ten_witness :
    calculate_expected_iterations_main "11111111112" =
      58 ^ ("11111111112" : String).utf8ByteSize % 2 ^ 64 / 2 ∧
    calculate_expected_iterations_main "11111111112" <
      58 ^ ("11111111112" : String).utf8ByteSize / 2 :=
  overflow_wraps_beyond_ten "11111111112" (by decide)

/-! ## C9: luck factor and its console label -/

/-- C9 (confirmed): the reported luck factor is the ratio
expected/actual (so multiplying it back by the actual count recovers the
expected count, and it exceeds 1 exactly when the search beat the
expectation), and the console label is "better" precisely when
actual < expected and "worse" otherwise. -/
theorem luck_factor_and_label (e a : Nat) :
    (luckLabel e a = "better" ↔ a < e) ∧
    (luckLabel e a = "worse" ↔ e ≤ a) ∧
    (0 < a → luckFactor e a * (a : ℚ) = (e : ℚ)) ∧
    (0 < a → (1 < luckFactor e a ↔ a < e)) := by
  refine ⟨⟨fun hl => ?_, fun h => ?_⟩, ⟨fun hl => ?_, fun h => ?_⟩,
    fun ha => ?_, fun ha => ?_⟩
  · by_contra hn
    unfold luckLabel at hl
    rw [if_neg hn] at hl
    exact absurd hl (by decide)
  · unfold luckLabel
    rw [if_pos h]
  · by_contra hn
    rw [not_le] at hn
    unfold luckLabel at hl
    rw [if_pos hn] at hl
    exact absurd hl (by decide)
  · unfold luckLabel
    rw [if_neg (not_lt.mpr h)]
  · unfold luckFactor
    rw [div_mul_cancel₀]
    exact Nat.cast_ne_zero.mpr (by omega)
  · unfold luckFactor
    rw [one_lt_div (by exact_mod_cast ha)]
    exact Nat.cast_lt

/-- C9 witness: at expected 6, actual 3 the label is "better" and the
ratio times the actual count gives back the expected count. -/
theorem luck_factor_and_label_witness :
    luckLabel 6 3 = "better" ∧
    luckFactor 6 3 * ((3 : Nat) : ℚ) = ((6 : Nat) : ℚ) :=
  ⟨(luck_factor_and_label 6 3).1.mpr (by decide),
   (luck_factor_and_label 6 3).2.2.1 (by decide)⟩

/-! ## C10: unrecognized --format values fall back to text -/

/-- C10 (confirmed): any `--format` value other than the exact string
"json" (clap parses the option as a plain string, so every value is
accepted) selects the plain-text branch and the `.txt` file name; no
error path exists for it. -/
theorem format_fallback (fmt pk : String) (h : fmt ≠ "json") :
    outputKind fmt = OutputKind.text ∧
    outputFileName fmt pk = walletPrefix10 pk ++ "_output.txt" := by
  have hb : (fmt == "json") = false := beq_eq_false_iff_ne.mpr h
  constructor
  · simp [outputKind, hb]
  · simp [outputFileName, outputKind, hb]

/-- C10 witness: the uppercase spelling "JSON" (and hence any
unrecognized value) takes the text branch. -/
theorem format_fallback_witness :
    outputKind "JSON" = OutputKind.text ∧
    outputFileName "JSON" "ABCDEFGHJKLMN" =
      walletPrefix10 "ABCDEFGHJKLMN" ++ "_output.txt" :=
  format_fallback "JSON" "ABCDEFGHJKLMN" (by decide)

/-! ## C8: prefix validation gates the whole run -/

/-- C8 (confirmed): when the prefix fails main.rs's validator the
program exits with code 1 having generated no candidate and created no
result; when it passes, the run is the search itself and a terminating
run exits with code 0, its statistics and result slot those of the
search.  (File persistence is external and not modelled; as the spec
notes, a never-matching search simply never terminates.) -/
theorem cli_validation_gate (pfx : String) (cs : List (List String))
    (sched : List Nat) :
    (is_valid_base58_prefix_main pfx = false →
      runProgram pfx cs sched = ⟨1, 0, none⟩) ∧
    (is_valid_base58_prefix_main pfx = true →
      (runProgram pfx cs sched).exitCode = 0 ∧
      (runProgram pfx cs sched).generated =
        totalGens (exec pfx (initConfig cs) sched) ∧
      (runProgram pfx cs sched).result =
        (exec pfx (initConfig cs) sched).slot) := by
  constructor
  · intro h
    simp [runProgram, h]
  · intro h
    simp [runProgram, h]

/-- C8 witness: the invalid prefix "0" exits 1 with nothing generated;
the valid prefix "1" runs the search and exits 0. -/
theorem cli_validation_gate_witness :
    runProgram "0" [["1A"]] [0] = ⟨1, 0, none⟩ ∧
    (runProgram "1" [["1A"]] soloSched).exitCode = 0 :=
  ⟨(cli_validation_gate "0" [["1A"]] [0]).1 (by decide),
   ((cli_validation_gate "1" [["1A"]] soloSched).2 (by decide)).1⟩


/-! ## Concurrency helper lemmas -/

theorem idx_set_self {l : List WState} {i : Nat} {w : WState}
    (h : l[i]? = some w) (w' : WState) : (l.set i w')[i]? = some w' :=
  List.getElem?_set_eq_of_lt w' (List.getElem?_eq_some.mp h).1

theorem idx_set_other {l : List WState} {i j : Nat} (hne : j ≠ i)
    (w' : WState) : (l.set i w')[j]? = l[j]? :=
  List.getElem?_set_ne (Ne.symm hne)

theorem sum_map_set (f : WState → Nat) :
    ∀ (l : List WState) (i : Nat) (w w' : WState), l[i]? = some w →
      ((l.set i w').map f).sum + f w = (l.map f).sum + f w' := by
  intro l
  induction l with
  | nil =>
    intro i w w' h
    simp at h
  | cons a t ih =>
    intro i w w' h
    cases i with
    | zero =>
      simp only [List.getElem?_cons_zero, Option.some.injEq] at h
      subst h
      simp only [List.set, List.map_cons, List.sum_cons]
      omega
    | succ n =>
      simp only [List.getElem?_cons_succ] at h
      have hs := ih n w w' h
      simp only [List.set, List.map_cons, List.sum_cons]
      omega

theorem sum_map_le_sum_map (f g : WState → Nat) (l : List WState)
    (h : ∀ x ∈ l, f x ≤ g x) : (l.map f).sum ≤ (l.map g).sum := by
  induction l with
  | nil => simp
  | cons a t ih =>
    simp only [List.map_cons, List.sum_cons]
    have := h a (by simp)
    have := ih (fun x hx => h x (by simp [hx]))
    omega

theorem sum_map_add_bound (f g : WState → Nat) (l : List WState) (b : Nat)
    (h : ∀ x ∈ l, f x ≤ g x + b) :
    (l.map f).sum ≤ (l.map g).sum + b * l.length := by
  induction l with
  | nil => simp
  | cons a t ih =>
    simp only [List.map_cons, List.sum_cons, List.length_cons]
    have h1 := h a (by simp)
    have h2 := ih (fun x hx => h x (by simp [hx]))
    have : b * (t.length + 1) = b * t.length + b := by ring
    omega

theorem flushedOf_le (w : WState) : flushedOf w ≤ w.k := by
  unfold flushedOf
  rcases w with ⟨pc, k, fr, cands⟩
  cases pc <;> simp <;> omega

theorem le_flushedOf_add (w : WState) : w.k ≤ flushedOf w + 1000 := by
  unfold flushedOf
  rcases w with ⟨pc, k, fr, cands⟩
  cases pc <;> simp <;> omega

/-! ## C3: the two mnemonic-mode derivation pipelines

The SHA-512 implementation is validated against the standard test
vectors for the empty message and for "abc", and the SLIP-10 stages of
`derive_solana_seed` on the all-zero 64-byte seed are evaluated one HMAC
at a time to byte-list literals. -/

set_option maxRecDepth 100000 in
theorem sha512_vector_empty :
    sha512 [] = [207, 131, 225, 53, 126, 239, 184, 189, 241, 84, 40, 80, 214, 109, 128, 7, 214, 32, 228, 5, 11, 87, 21, 220, 131, 244, 169, 33, 211, 108, 233, 206, 71, 208, 209, 60, 93, 133, 242, 176, 255, 131, 24, 210, 135, 126, 236, 47, 99, 185, 49, 189, 71, 65, 122, 129, 165, 56, 50, 122, 249, 39, 218, 62] := by
  decide

set_option maxRecDepth 100000 in
theorem sha512_vector_abc :
    sha512 ("abc".toList.map Char.toNat) = [221, 175, 53, 161, 147, 97, 122, 186, 204, 65, 115, 73, 174, 32, 65, 49, 18, 230, 250, 78, 137, 169, 126, 162, 10, 158, 238, 230, 75, 85, 211, 154, 33, 146, 153, 42, 39, 79, 193, 168, 54, 186, 60, 35, 163, 254, 235, 189, 69, 77, 68, 35, 100, 60, 232, 14, 42, 154, 201, 79, 165, 76, 164, 159] := by
  decide

set_option maxRecDepth 100000 in
theorem slipM0_lit : slipM0 = [175, 121, 10, 220, 28, 143, 96, 67, 197, 199, 157, 224, 213, 253, 6, 31, 125, 176, 56, 47, 116, 196, 194, 201, 109, 201, 33, 21, 36, 109, 35, 96, 17, 176, 122, 247, 209, 85, 43, 11, 206, 156, 41, 127, 5, 35, 107, 181, 230, 71, 167, 169, 153, 22, 209, 39, 149, 43, 112, 80, 48, 173, 52, 188] := by
  decide

set_option maxRecDepth 100000 in
theorem slipKC0_lit :
    slipKC0 = ([175, 121, 10, 220, 28, 143, 96, 67, 197, 199, 157, 224, 213, 253, 6, 31, 125, 176, 56, 47, 116, 196, 194, 201, 109, 201, 33, 21, 36, 109, 35, 96],
     [17, 176, 122, 247, 209, 85, 43, 11, 206, 156, 41, 127, 5, 35, 107, 181, 230, 71, 167, 169, 153, 22, 209, 39, 149, 43, 112, 80, 48, 173, 52, 188]) := by
  simp only [slipKC0, slipM0_lit]
  decide

set_option maxRecDepth 100000 in
theorem slipKC1_lit :
    slipKC1 = ([239, 45, 154, 155, 141, 20, 109, 82, 151, 157, 113, 117, 18, 208, 40, 192, 125, 142, 222, 18, 250, 95, 236, 242, 211, 128, 86, 252, 116, 12, 61, 33],
     [104, 218, 117, 209, 190, 120, 230, 186, 113, 7, 28, 155, 238, 41, 218, 134, 41, 47, 44, 6, 194, 217, 47, 0, 83, 250, 94, 29, 43, 22, 53, 217]) := by
  simp only [slipKC1, slipKC0_lit]
  decide

set_option maxRecDepth 100000 in
theorem slipKC2_lit :
    slipKC2 = ([8, 242, 68, 61, 137, 254, 149, 162, 24, 249, 167, 253, 179, 240, 205, 52, 202, 121, 229, 121, 0, 51, 246, 75, 15, 169, 22, 250, 227, 229, 134, 148],
     [231, 26, 145, 85, 16, 212, 143, 93, 36, 218, 231, 33, 85, 156, 1, 124, 158, 24, 154, 52, 135, 250, 121, 169, 65, 89, 83, 71, 251, 100, 223, 77]) := by
  simp only [slipKC2, slipKC1_lit]
  decide

set_option maxRecDepth 100000 in
theorem slipKC3_lit :
    slipKC3 = ([212, 113, 14, 220, 206, 136, 135, 243, 14, 175, 82, 233, 81, 16, 203, 254, 94, 92, 57, 24, 189, 47, 36, 130, 54, 128, 32, 203, 72, 172, 236, 15],
     [106, 187, 191, 176, 118, 223, 188, 113, 124, 44, 229, 93, 26, 111, 66, 92, 113, 143, 107, 240, 92, 63, 103, 124, 203, 12, 102, 120, 2, 201, 16, 73]) := by
  simp only [slipKC3, slipKC2_lit]
  decide

set_option maxRecDepth 100000 in
theorem slipKC4_lit :
    slipKC4 = ([125, 24, 67, 6, 168, 69, 42, 89, 236, 53, 222, 53, 222, 112, 54, 88, 37, 39, 67, 227, 31, 138, 170, 84, 145, 216, 176, 140, 28, 143, 25, 4],
     [142, 31, 5, 50, 213, 20, 144, 70, 11, 210, 152, 52, 12, 99, 124, 237, 5, 194, 180, 101, 51, 194, 143, 72, 128, 34, 159, 27, 251, 209, 22, 174]) := by
  simp only [slipKC4, slipKC3_lit]
  decide

theorem derive_zeroSeed_eq_stage : derive_solana_seed zeroSeed64 = slipKC4.1 := rfl

/-- C3: the worker's candidate generation (main.rs lines 198-200, which
builds the keypair from the first 32 bytes of the 64-byte BIP39 seed
with no path derivation) does not compute the same keypair as the
library's path-derived generation (lib.rs lines 33-35 via
`derive_solana_seed`): on the all-zero 64-byte seed the worker's signing
seed is 32 zero bytes while the SLIP-10 derivation along
44h/501h/0h/0h yields a different 32-byte key, so the two keypairs
differ for any entropy whose BIP39 seed is that seed — and the two
pipelines are different functions of the seed. -/
theorem mnemonic_pipeline_divergence :
    workerKeypairOfSeed zeroSeed64 ≠ libKeypairOfSeed zeroSeed64 ∧
    workerSigningSeed zeroSeed64 = List.replicate 32 0 := by
  constructor
  · intro he
    unfold workerKeypairOfSeed libKeypairOfSeed keypairFromSeed at he
    rw [derive_zeroSeed_eq_stage, slipKC4_lit] at he
    exact absurd he (by decide)
  · decide

theorem length_stepW (pfx : String) (c : Config) (i : Nat) :
    (stepW pfx c i).ws.length = c.ws.length := by
  unfold stepW
  cases h : c.ws[i]? with
  | none => rfl
  | some w =>
    obtain ⟨pc, k, fr, cands⟩ := w
    cases pc <;> simp only [] <;> first
      | (split <;> simp [List.length_set])
      | simp [List.length_set]
      | rfl

theorem counter_mono_stepW (pfx : String) (c : Config) (i : Nat) :
    c.counter ≤ (stepW pfx c i).counter := by
  unfold stepW
  cases h : c.ws[i]? with
  | none => exact le_refl _
  | some w =>
    obtain ⟨pc, k, fr, cands⟩ := w
    cases pc <;> simp only [] <;> first
      | (split <;> simp <;> omega)
      | (simp <;> omega)
      | omega
      | exact le_refl _

theorem found_mono_stepW (pfx : String) (c : Config) (i : Nat)
    (hf : c.found = true) : (stepW pfx c i).found = true := by
  unfold stepW
  cases h : c.ws[i]? with
  | none => exact hf
  | some w =>
    obtain ⟨pc, k, fr, cands⟩ := w
    cases pc <;> simp only [] <;> first
      | (split <;> exact hf)
      | exact hf
      | rfl

theorem inv_init (pfx : String) (cs : List (List String)) :
    Inv pfx (initConfig cs) := by
  have hget : ∀ (j : Nat) (w : WState), (initConfig cs).ws[j]? = some w →
      w.pc = WPhase.look ∧ w.k = 0 := by
    intro j w h
    unfold initConfig at h
    simp only [List.getElem?_map] at h
    cases hc : cs[j]? with
    | none => rw [hc] at h; simp at h
    | some l =>
      rw [hc] at h
      simp only [Option.map_some'] at h
      injection h with h
      rw [← h]
      exact ⟨rfl, rfl⟩
  refine ⟨?_, ?_, ?_, ?_, ?_, ?_, ?_⟩
  · show 0 = ((initConfig cs).ws.map flushedOf).sum
    symm
    apply List.sum_eq_zero
    intro x hx
    obtain ⟨w, hw, rfl⟩ := List.mem_map.mp hx
    obtain ⟨l, hl, rfl⟩ := List.mem_map.mp hw
    simp [flushedOf]
  · intro j w hj hfl
    obtain ⟨hpc, _⟩ := hget j w hj
    rw [hpc] at hfl
    exact absurd hfl (by decide)
  · intro hf
    simp [initConfig] at hf
  · intro j w hj hdw
    obtain ⟨hpc, _⟩ := hget j w hj
    rw [hpc] at hdw
    exact absurd hdw (by decide)
  · intro j w hj hm
    obtain ⟨hpc, _⟩ := hget j w hj
    rw [hpc] at hm
    exact absurd hm (by decide)
  · intro d hd
    simp [initConfig] at hd
  · intro hs
    simp [initConfig] at hs

theorem inv_set_delta (pfx : String) (c : Config) (i : Nat) (w w' : WState)
    (hinv : Inv pfx c) (h : c.ws[i]? = some w) (d : Nat)
    (hfl : flushedOf w' = flushedOf w + d)
    (hflag : phaseFlagTrue w'.pc = true → c.found = true)
    (hafter : phaseAfterFlag w.pc = true → phaseAfterFlag w'.pc = true)
    (hwin : w'.pc = WPhase.doneWin → c.slot.isSome = true)
    (hmat : phaseMatched w'.pc = true → strStarts (candAt w') pfx = true) :
    Inv pfx { c with counter := c.counter + d, ws := c.ws.set i w' } := by
  have hsum := sum_map_set flushedOf c.ws i w w' h
  have hc := hinv.counterEq
  refine ⟨?_, ?_, ?_, ?_, ?_, ?_, ?_⟩
  · show c.counter + d = ((c.ws.set i w').map flushedOf).sum
    omega
  · intro j w2 hj hfl2
    by_cases hji : j = i
    · subst hji
      rw [idx_set_self h w'] at hj
      injection hj with hj
      subst hj
      exact hflag hfl2
    · rw [idx_set_other hji w'] at hj
      exact hinv.flagOfPhase j w2 hj hfl2
  · intro hf
    obtain ⟨j, wj, hj, haf⟩ := hinv.winnerExists hf
    by_cases hji : j = i
    · subst hji
      rw [h] at hj
      injection hj with hj
      subst hj
      exact ⟨j, w', idx_set_self h w', hafter haf⟩
    · exact ⟨j, wj, by rw [idx_set_other hji w']; exact hj, haf⟩
  · intro j w2 hj hdw
    by_cases hji : j = i
    · subst hji
      rw [idx_set_self h w'] at hj
      injection hj with hj
      subst hj
      exact hwin hdw
    · rw [idx_set_other hji w'] at hj
      exact hinv.winnerSlot j w2 hj hdw
  · intro j w2 hj hm
    by_cases hji : j = i
    · subst hji
      rw [idx_set_self h w'] at hj
      injection hj with hj
      subst hj
      exact hmat hm
    · rw [idx_set_other hji w'] at hj
      exact hinv.matchedCand j w2 hj hm
  · exact hinv.slotMatch
  · exact hinv.slotFound

theorem inv_set_flag (pfx : String) (c : Config) (i : Nat) (w : WState)
    (hinv : Inv pfx c) (h : c.ws[i]? = some w) (hpc : w.pc = WPhase.setFlag) :
    Inv pfx { c with found := true,
                     ws := c.ws.set i { w with pc := WPhase.flushRem } } := by
  have hsum := sum_map_set flushedOf c.ws i w { w with pc := WPhase.flushRem } h
  have hc := hinv.counterEq
  have hfl : flushedOf { w with pc := WPhase.flushRem } = flushedOf w := by
    rcases w with ⟨pc, k, fr, cands⟩
    cases hpc
    rfl
  refine ⟨?_, ?_, ?_, ?_, ?_, ?_, ?_⟩
  · show c.counter = ((c.ws.set i { w with pc := WPhase.flushRem }).map flushedOf).sum
    omega
  · intro _ _ _ _
    rfl
  · intro _
    exact ⟨i, { w with pc := WPhase.flushRem }, idx_set_self h _, rfl⟩
  · intro j w2 hj hdw
    by_cases hji : j = i
    · subst hji
      rw [idx_set_self h _] at hj
      injection hj with hj
      subst hj
      exact WPhase.noConfusion hdw
    · rw [idx_set_other hji _] at hj
      exact hinv.winnerSlot j w2 hj hdw
  · intro j w2 hj hm
    by_cases hji : j = i
    · subst hji
      rw [idx_set_self h _] at hj
      injection hj with hj
      subst hj
      exact hinv.matchedCand j w h (by rw [hpc]; rfl)
    · rw [idx_set_other hji _] at hj
      exact hinv.matchedCand j w2 hj hm
  · exact hinv.slotMatch
  · intro _
    rfl

theorem inv_write_slot (pfx : String) (c : Config) (i : Nat) (w : WState)
    (hinv : Inv pfx c) (h : c.ws[i]? = some w) (hpc : w.pc = WPhase.writeSlot) :
    Inv pfx { c with slot := some ⟨candAt w, w.finalRead⟩,
                     ws := c.ws.set i { w with pc := WPhase.doneWin } } := by
  have hsum := sum_map_set flushedOf c.ws i w { w with pc := WPhase.doneWin } h
  have hc := hinv.counterEq
  have hfl : flushedOf { w with pc := WPhase.doneWin } = flushedOf w := by
    rcases w with ⟨pc, k, fr, cands⟩
    cases hpc
    rfl
  have hfound : c.found = true :=
    hinv.flagOfPhase i w h (by rw [phaseFlagTrue, hpc]; rfl)
  have hmatch : strStarts (candAt w) pfx = true :=
    hinv.matchedCand i w h (by rw [hpc]; rfl)
  refine ⟨?_, ?_, ?_, ?_, ?_, ?_, ?_⟩
  · show c.counter = ((c.ws.set i { w with pc := WPhase.doneWin }).map flushedOf).sum
    omega
  · intro _ _ _ _
    exact hfound
  · intro _
    exact ⟨i, { w with pc := WPhase.doneWin }, idx_set_self h _, rfl⟩
  · intro _ _ _ _
    rfl
  · intro j w2 hj hm
    by_cases hji : j = i
    · subst hji
      rw [idx_set_self h _] at hj
      injection hj with hj
      subst hj
      exact hmatch
    · rw [idx_set_other hji _] at hj
      exact hinv.matchedCand j w2 hj hm
  · intro d hd
    injection hd with hd
    rw [← hd]
    exact hmatch
  · intro _
    exact hfound

theorem inv_step (pfx : String) (c : Config) (i : Nat) (hinv : Inv pfx c) :
    Inv pfx (stepW pfx c i) := by
  cases h : c.ws[i]? with
  | none =>
    unfold stepW
    rw [h]
    exact hinv
  | some w =>
    obtain ⟨pc, k, fr, cands⟩ := w
    cases pc with
    | look =>
      unfold stepW
      rw [h]
      simp only []
      by_cases hf : c.found = true
      · rw [if_pos hf]
        exact inv_set_delta pfx c i _ _ hinv h 0 (by simp [flushedOf])
          (fun _ => hf) (fun hx => nomatch hx) (fun hx => nomatch hx)
          (fun hx => nomatch hx)
      · rw [if_neg hf]
        exact inv_set_delta pfx c i _ _ hinv h 0 (by simp [flushedOf])
          (fun hx => nomatch hx) (fun hx => nomatch hx) (fun hx => nomatch hx)
          (fun hx => nomatch hx)
    | work =>
      unfold stepW
      rw [h]
      simp only []
      split
      case isTrue hb =>
        have hb' : (k + 1) % 1000 = 0 := by
          simp only [beq_iff_eq] at hb
          exact hb
        split
        case isTrue hs =>
          exact inv_set_delta pfx c i _ _ hinv h 1000
            (by simp [flushedOf]; omega)
            (fun hx => nomatch hx) (fun hx => nomatch hx)
            (fun hx => nomatch hx) (fun _ => hs)
        case isFalse hs =>
          exact inv_set_delta pfx c i _ _ hinv h 1000
            (by simp [flushedOf]; omega)
            (fun hx => nomatch hx) (fun hx => nomatch hx)
            (fun hx => nomatch hx) (fun hx => nomatch hx)
      case isFalse hb =>
        have hb' : (k + 1) % 1000 ≠ 0 := by
          simp only [beq_iff_eq] at hb
          exact hb
        split
        case isTrue hs =>
          exact inv_set_delta pfx c i _ _ hinv h 0
            (by simp [flushedOf]; omega)
            (fun hx => nomatch hx) (fun hx => nomatch hx)
            (fun hx => nomatch hx) (fun _ => hs)
        case isFalse hs =>
          exact inv_set_delta pfx c i _ _ hinv h 0
            (by simp [flushedOf]; omega)
            (fun hx => nomatch hx) (fun hx => nomatch hx)
            (fun hx => nomatch hx) (fun hx => nomatch hx)
    | setFlag =>
      unfold stepW
      rw [h]
      exact inv_set_flag pfx c i _ hinv h rfl
    | flushRem =>
      unfold stepW
      rw [h]
      exact inv_set_delta pfx c i _ _ hinv h (k % 1000)
        (by simp [flushedOf]; omega)
        (fun _ => hinv.flagOfPhase i ⟨WPhase.flushRem, k, fr, cands⟩ h rfl)
        (fun _ => rfl) (fun hx => nomatch hx)
        (fun _ => hinv.matchedCand i ⟨WPhase.flushRem, k, fr, cands⟩ h rfl)
    | readCnt =>
      unfold stepW
      rw [h]
      exact inv_set_delta pfx c i _ _ hinv h 0
        (by simp [flushedOf])
        (fun _ => hinv.flagOfPhase i ⟨WPhase.readCnt, k, fr, cands⟩ h rfl)
        (fun _ => rfl) (fun hx => nomatch hx)
        (fun _ => hinv.matchedCand i ⟨WPhase.readCnt, k, fr, cands⟩ h rfl)
    | writeSlot =>
      unfold stepW
      rw [h]
      exact inv_write_slot pfx c i _ hinv h rfl
    | doneWin =>
      unfold stepW
      rw [h]
      exact hinv
    | doneLose =>
      unfold stepW
      rw [h]
      exact hinv

theorem reach_inv (pfx : String) (cs : List (List String)) (c : Config)
    (h : Reach pfx (initConfig cs) c) : Inv pfx c := by
  induction h with
  | refl => exact inv_init pfx cs
  | tail i _ ih => exact inv_step pfx _ i ih

theorem reach_exec (pfx : String) (c0 c : Config) (sched : List Nat)
    (h : Reach pfx c0 c) : Reach pfx c0 (exec pfx c sched) := by
  induction sched generalizing c with
  | nil => exact h
  | cons i t ih => exact ih (stepW pfx c i) (Reach.tail i h)

/-! ## C6: the shared iteration counter -/

/-- C6 (confirmed): in every reachable state of the search, every step
of every worker leaves the shared counter non-decreasing (workers only
add to it: full batches of 1000 and the winner's final remainder
flush), the counter never exceeds the true number of generated
candidates, and it undercounts that true total by at most one batch
(1000) per worker. -/
theorem sharedCounter_monotone_bounded (pfx : String) (cs : List (List String))
    (c : Config) (h : Reach pfx (initConfig cs) c) :
    (∀ i : Nat, c.counter ≤ (stepW pfx c i).counter) ∧
    c.counter ≤ totalGens c ∧
    totalGens c ≤ c.counter + 1000 * c.ws.length := by
  have hinv := reach_inv pfx cs c h
  refine ⟨fun i => counter_mono_stepW pfx c i, ?_, ?_⟩
  · rw [hinv.counterEq]
    exact sum_map_le_sum_map _ _ _ (fun x _ => flushedOf_le x)
  · rw [hinv.counterEq]
    exact sum_map_add_bound (fun w => w.k) flushedOf c.ws 1000
      (fun x _ => le_flushedOf_add x)

/-- C6 witness: the bounds evaluated on the configuration reached by a
concrete terminating schedule of the one-worker search for "1". -/
theorem sharedCounter_monotone_bounded_witness :
    (exec "1" soloInit soloSched).counter ≤
      totalGens (exec "1" soloInit soloSched) ∧
    totalGens (exec "1" soloInit soloSched) ≤
      (exec "1" soloInit soloSched).counter +
        1000 * (exec "1" soloInit soloSched).ws.length := by
  have h := sharedCounter_monotone_bounded "1" [["1A"]]
    (exec "1" soloInit soloSched)
    (reach_exec "1" (initConfig [["1A"]]) (initConfig [["1A"]]) soloSched
      Reach.refl)
  exact ⟨h.2.1, h.2.2⟩

/-! ## C7: the result slot is present at termination -/

/-- C7 (confirmed): in every reachable state in which all workers have
terminated (and there is at least one worker, as there is one per CPU),
the found-flag is set — the loop terminates only after some worker sets
it — and the winning-result slot holds a value, so the coordinator's
final read never sees the empty case. -/
theorem terminated_run_slot_present (pfx : String) (cs : List (List String))
    (c : Config) (h : Reach pfx (initConfig cs) c) (hne : 0 < c.ws.length)
    (hdone : ∀ w ∈ c.ws, w.pc = WPhase.doneWin ∨ w.pc = WPhase.doneLose) :
    c.found = true ∧ ∃ d : SlotData, c.slot = some d := by
  have hinv := reach_inv pfx cs c h
  obtain ⟨w0, hw0⟩ : ∃ w0, c.ws[0]? = some w0 := by
    cases hx : c.ws[0]? with
    | none =>
      rw [List.getElem?_eq_none_iff] at hx
      omega
    | some w0 => exact ⟨w0, rfl⟩
  have hfound : c.found = true := by
    rcases hdone w0 (mem_of_idx hw0) with hwin | hlose
    · exact hinv.flagOfPhase 0 w0 hw0 (by rw [phaseFlagTrue, hwin]; rfl)
    · exact hinv.flagOfPhase 0 w0 hw0 (by rw [phaseFlagTrue, hlose]; rfl)
  refine ⟨hfound, ?_⟩
  obtain ⟨j, wj, hj, haf⟩ := hinv.winnerExists hfound
  rcases hdone wj (mem_of_idx hj) with hwin | hlose
  · obtain ⟨d, hd⟩ := Option.isSome_iff_exists.mp (hinv.winnerSlot j wj hj hwin)
    exact ⟨d, hd⟩
  · rw [hlose] at haf
    exact absurd haf (by decide)

/-- C7 witness: a concrete terminated one-worker run, with the flag set
and the slot present. -/
theorem terminated_run_slot_present_witness :
    (exec "1" soloInit soloSched).found = true ∧
    ∃ d : SlotData, (exec "1" soloInit soloSched).slot = some d :=
  terminated_run_slot_present "1" [["1A"]] (exec "1" soloInit soloSched)
    (reach_exec "1" (initConfig [["1A"]]) (initConfig [["1A"]]) soloSched
      Reach.refl)
    (by decide) (by decide)

/-! ## C1: the found-flag claim and the result slot -/

/-- C1, counterexample: the winning worker does not claim the flag with
a compare-and-set — main.rs line 211 is a plain `store` — so the slot
can be written more than once and overwritten: with two workers whose
first candidates both match "1", both pass the flag check before either
stores it; worker 0 completes its match branch and the slot holds its
result, then worker 1 completes its own match branch and overwrites the
slot with a different value. -/
theorem result_slot_overwritten :
    (exec "1" cexInit cexSchedA).slot = some ⟨"1A", 1⟩ ∧
    (exec "1" cexInit (cexSchedA ++ cexSchedB)).slot = some ⟨"1B", 2⟩ ∧
    SlotData.mk "1A" 1 ≠ SlotData.mk "1B" 2 := by
  refine ⟨by decide, by decide, by decide⟩

/-- C1 (amended): a matching worker sets the shared found-flag with a
plain atomic store (not a compare-and-set) before writing the result
slot; consequently, when several workers match concurrently, more than
one may write the slot and an earlier write may be overwritten.  What
does hold in every reachable state: the flag only ever transitions from
false to true, a non-empty slot implies the flag is already set (the
store at line 211 precedes the slot write at line 219), and every value
the slot ever holds is a candidate whose address starts with the target
prefix. -/
theorem flag_and_slot_invariants (pfx : String) (cs : List (List String))
    (c : Config) (h : Reach pfx (initConfig cs) c) :
    (∀ i : Nat, c.found = true → (stepW pfx c i).found = true) ∧
    (∀ d : SlotData, c.slot = some d →
      strStarts d.pubkey pfx = true ∧ c.found = true) := by
  have hinv := reach_inv pfx cs c h
  refine ⟨fun i hf => found_mono_stepW pfx c i hf, fun d hd => ?_⟩
  exact ⟨hinv.slotMatch d hd, hinv.slotFound (by rw [hd]; rfl)⟩

/-- C1 witness: the invariants evaluated after worker 0's complete
match branch in the two-worker overwrite run. -/
theorem flag_and_slot_invariants_witness :
    strStarts (SlotData.mk "1A" 1).pubkey "1" = true ∧
    (exec "1" cexInit cexSchedA).found = true := by
  have h := flag_and_slot_invariants "1" [["1A"], ["1B"]]
    (exec "1" cexInit cexSchedA)
    (reach_exec "1" (initConfig [["1A"], ["1B"]]) (initConfig [["1A"], ["1B"]])
      cexSchedA Reach.refl)
  have h2 := h.2 ⟨"1A", 1⟩ (by decide)
  exact ⟨h2.1, h2.2⟩

end VanityWallet
